import Mathlib

/-!
Shallow embedding of the PDF table extractor core (app/main.py):
geometry utilities, color utilities, the highlight mapping engine, the
OCR table-reconstruction engine and per-page table selection, together
with theorems settling the specification claims about them.

Python floats are modelled as rationals, Python `int(...)` as truncation
toward zero, Python `str` as Lean `String` (with `.strip()` implemented
over the character list), and fallible lookups as `Option`.
-/

/-- Python `int(q)` on a float: truncation toward zero
(`Int.tdiv` is the round-toward-zero division, and `q.den > 0`). -/
def pyInt (q : ℚ) : ℤ := Int.tdiv q.num q.den

/-- Uppercase hex digit for `n < 16` (as in Python `"%X"` formatting). -/
def hexDigit (n : ℕ) : Char := if n < 10 then Char.ofNat (48 + n) else Char.ofNat (55 + n)

/-- Hex digits of `n`, most significant first; fuel-driven so it reduces in the kernel. -/
def hexRepAux : ℕ → ℕ → List Char
  | 0, _ => []
  | fuel + 1, n => if n < 16 then [hexDigit n] else hexRepAux fuel (n / 16) ++ [hexDigit (n % 16)]

/-- Uppercase hex representation of a natural number, no padding. -/
def hexRep (n : ℕ) : List Char := hexRepAux (n + 1) n

/-- Python `f"{n:02X}"`: uppercase hex padded with zeros to total width 2
(the sign counts toward the width, so negative values are never padded). -/
def pyHex02 (n : ℤ) : String :=
  if n < 0 then "-" ++ ⟨hexRep n.natAbs⟩
  else if (hexRep n.toNat).length < 2 then ⟨List.replicate (2 - (hexRep n.toNat).length) '0' ++ hexRep n.toNat⟩
  else ⟨hexRep n.toNat⟩

/-- `_color_to_hex` (main.py:61-72): convert a PDF RGB/gray color array to
8-char ARGB hex.  `None` and `[]` are falsy, a 1-element array is replicated
to r=g=b, 3 or more elements use the first three, and a 2-element array makes
the tuple unpacking raise, which the handler turns into `None`. -/
def color_to_hex (color : Option (List ℚ)) : Option String :=
  match color with
  | none => none
  | some [] => none
  | some [c] =>
    some ("FF" ++ pyHex02 (pyInt (c * 255)) ++ pyHex02 (pyInt (c * 255)) ++ pyHex02 (pyInt (c * 255)))
  | some [_, _] => none
  | some (r :: g :: b :: _) =>
    some ("FF" ++ pyHex02 (pyInt (r * 255)) ++ pyHex02 (pyInt (g * 255)) ++ pyHex02 (pyInt (b * 255)))

/-- A normalized axis-aligned box `{x0, x1, top, bottom}` in page coordinates. -/
structure Box where
  x0 : ℚ
  x1 : ℚ
  top : ℚ
  bottom : ℚ
deriving DecidableEq

/-- `_boxes_overlap` (main.py:107-114): basic AABB overlap check. -/
def boxes_overlap (a b : Box) : Bool :=
  !(a.x1 ≤ b.x0 || a.x0 ≥ b.x1 || a.top ≥ b.bottom || a.bottom ≤ b.top)

/-- Python `s.lower()`, modelled characterwise over the string's data. -/
def pyLower (s : String) : String := ⟨s.data.map Char.toLower⟩

/-- Python truthiness of an optional float: `None` and `0.0` are falsy. -/
def pyTruthyQ : Option ℚ → Bool
  | none => false
  | some q => decide (q ≠ 0)

/-- Python `a or b` on two optional floats (used for the `top`/`y1` and
`bottom`/`y0` fallbacks of highlight annotation records, main.py:88-89). -/
def pyOrQ (a b : Option ℚ) : Option ℚ := if pyTruthyQ a then a else b

/-- Python truthiness of an optional color array: truthy iff present and non-empty. -/
def colorTruthy : Option (List ℚ) → Bool
  | some (_ :: _) => true
  | _ => false

/-- A loosely-typed rectangle/shape record as exposed by the PDF page:
every geometric key is optional, plus optional fill/stroke color arrays. -/
structure RawRect where
  x0 : Option ℚ
  x1 : Option ℚ
  top : Option ℚ
  bottom : Option ℚ
  y0 : Option ℚ
  y1 : Option ℚ
  nonStrokingColor : Option (List ℚ)
  strokeColor : Option (List ℚ)
deriving DecidableEq

/-- A page annotation record (subtype, optional coordinates, optional color). -/
structure Annot where
  subtype : String
  x0 : Option ℚ
  x1 : Option ℚ
  top : Option ℚ
  bottom : Option ℚ
  y0 : Option ℚ
  y1 : Option ℚ
  color : Option (List ℚ)
deriving DecidableEq

/-- The rectangle dict built from a highlight-subtype annotation
(main.py:84-92): its own `x0`/`x1`, `top` as `annot.get("top") or
annot.get("y1")`, `bottom` as `annot.get("bottom") or annot.get("y0")`, and
the annotation's `color` as `non_stroking_color`; all other keys absent. -/
def annotToRect (a : Annot) : RawRect :=
  { x0 := a.x0, x1 := a.x1,
    top := pyOrQ a.top a.y1, bottom := pyOrQ a.bottom a.y0,
    y0 := none, y1 := none,
    nonStrokingColor := a.color, strokeColor := none }

/-- The three row/column metadata shapes tolerated by `_map_highlights`
(object with `bbox`, 4-element sequence, bare number), plus an unrecognized
shape that resolves to nothing. -/
inductive RowColObj where
  | withBbox (x0 top x1 bottom : ℚ)
  | seq4 (e0 e1 e2 e3 : ℚ)
  | num (v : ℚ)
  | otherObj
deriving DecidableEq

/-- A vector-detected table: its extracted text matrix (cells may be null)
and its row/column metadata. -/
structure Table where
  extract : List (List (Option String))
  rows : List RowColObj
  cols : List RowColObj
deriving DecidableEq

/-- A rasterized page image: integer pixel grid of RGB values. -/
structure Image where
  width : ℤ
  height : ℤ
  pix : ℤ → ℤ → ℚ × ℚ × ℚ

/-- A raw OCR token record (text, confidence, geometry, grouping hints). -/
structure RawWord where
  text : String
  conf : ℤ
  left : ℤ
  topc : ℤ
  width : ℤ
  height : ℤ
  block : ℤ
  par : ℤ
  line : ℤ

/-- A PDF page as consumed by the core: its rectangle and annotation records,
the vector tables found on it, whether it has extractable text, the rendered
image (`none` when rasterization fails), and the raw OCR output (`none` when
the OCR call raises). -/
structure Page where
  rects : List RawRect
  annots : List Annot
  findTables : List Table
  hasText : Bool
  image : Option Image
  ocrRaw : Option (List RawWord)

/-- `_rectangles_with_color` (main.py:75-93): page rectangles carrying a
truthy non-stroke or stroke color, followed by every highlight-subtype
annotation turned into a rectangle dict via `annotToRect`. -/
def rectangles_with_color (page : Page) : List RawRect :=
  page.rects.filter (fun r => colorTruthy r.nonStrokingColor || colorTruthy r.strokeColor) ++
    (page.annots.filter (fun a => pyLower a.subtype == "highlight")).map annotToRect

/-- `_normalize_box` (main.py:96-104): `top` prefers the `top` key and falls
back to `y1` only when `top` is `None` (an `is not None` test, not truthiness);
`bottom` likewise prefers `bottom` over `y0`; `None` if any coordinate is missing. -/
def normalize_box (r : RawRect) : Option Box :=
  let topv := match r.top with | some t => some t | none => r.y1
  let botv := match r.bottom with | some b => some b | none => r.y0
  match r.x0, r.x1, topv, botv with
  | some a, some b, some t, some bo => some ⟨a, b, t, bo⟩
  | _, _, _, _ => none

/-- The color a candidate region resolves to: `_color_to_hex` of
`rect.get("non_stroking_color") or rect.get("stroke_color")` (main.py:209-211). -/
def rectHex (r : RawRect) : Option String :=
  color_to_hex (if colorTruthy r.nonStrokingColor then r.nonStrokingColor else r.strokeColor)

/-- Whether a candidate region wins a cell: its resolved color is non-null,
its box normalizes, and the normalized box overlaps the cell box (main.py:213). -/
def rectMatches (cell : Box) (r : RawRect) : Bool :=
  match rectHex r, normalize_box r with
  | some _, some rb => boxes_overlap cell rb
  | _, _ => false

/-- The inner region scan of `_map_highlights` (main.py:208-215): the first
candidate region that matches the cell assigns its color; the scan then stops. -/
def firstMatch (rects : List RawRect) (cell : Box) : Option String :=
  match rects with
  | [] => none
  | r :: rs =>
    match rectHex r, normalize_box r with
    | some c, some rb => if boxes_overlap cell rb then some c else firstMatch rs cell
    | _, _ => firstMatch rs cell

/-- `_row_bounds` (main.py:146-170): resolve a row's `(top, bottom)` from the
row metadata; bare numbers pair with the next entry, swapped into order. -/
def row_bounds (metas : List RowColObj) (idx : ℕ) : Option (ℚ × ℚ) :=
  match metas.get? idx with
  | none => none
  | some (RowColObj.withBbox _ t _ b) => some (t, b)
  | some (RowColObj.seq4 _ e1 _ e3) => some (e1, e3)
  | some (RowColObj.num v) =>
    match metas.get? (idx + 1) with
    | some (RowColObj.num w) => if v ≤ w then some (v, w) else some (w, v)
    | _ => none
  | some RowColObj.otherObj => none

/-- `_col_bounds` (main.py:172-193): resolve a column's `(x0, x1)` from the
column metadata; same three shapes as `row_bounds`. -/
def col_bounds (metas : List RowColObj) (idx : ℕ) : Option (ℚ × ℚ) :=
  match metas.get? idx with
  | none => none
  | some (RowColObj.withBbox x0 _ x1 _) => some (x0, x1)
  | some (RowColObj.seq4 e0 _ e2 _) => some (e0, e2)
  | some (RowColObj.num v) =>
    match metas.get? (idx + 1) with
    | some (RowColObj.num w) => if v ≤ w then some (v, w) else some (w, v)
    | _ => none
  | some RowColObj.otherObj => none

/-- The longest row length of the extracted text matrix
(`cols = max(len(r) for r in data)`, main.py:130). -/
def maxRowLen (data : List (List (Option String))) : ℕ :=
  data.foldr (fun r m => max r.length m) 0

/-- One output row of the highlight matrix (main.py:195-215): `cols` entries,
all null when the row's vertical extent is unresolved; within the row's own
cell count, a resolvable column gets the first-matching region's color. -/
def mapRow (rects : List RawRect) (tcols : List RowColObj) (rb : Option (ℚ × ℚ))
    (rowLen cols : ℕ) : List (Option String) :=
  (List.range cols).map (fun c =>
    match rb with
    | none => none
    | some (rt, rbt) =>
      if c < rowLen then
        match col_bounds tcols c with
        | none => none
        | some (cx0, cx1) => firstMatch rects ⟨cx0, cx1, rt, rbt⟩
      else none)

/-- `_map_highlights` (main.py:117-217): empty extract gives an empty matrix;
otherwise a `rows x cols` matrix (cols = longest text row), all-null when the
page has no candidate regions, else filled per cell by the region scan. -/
def map_highlights (table : Table) (page : Page) : List (List (Option String)) :=
  let data := table.extract
  if data = [] then []
  else
    let cols := maxRowLen data
    let rects := rectangles_with_color page
    if rects = [] then data.map (fun _ => List.replicate cols none)
    else
      (List.range data.length).map (fun r =>
        mapRow rects table.cols (row_bounds table.rows r) (data.getD r []).length cols)

/-- A highlight annotation whose `top` key is present but `0.0` (falsy in Python). -/
def annotFalsyTop : Annot :=
  { subtype := "highlight", x0 := some 1, x1 := some 2,
    top := some 0, bottom := some 1, y0 := some 1, y1 := some 1,
    color := some [1, 0, 0] }

/-- A page whose only content is `annotFalsyTop`. -/
def pageFalsyTop : Page :=
  { rects := [], annots := [annotFalsyTop], findTables := [],
    hasText := false, image := none, ocrRaw := none }

/-- Python `s.strip()`: drop leading and trailing whitespace characters. -/
def pyStrip (s : String) : String :=
  ⟨((s.data.dropWhile Char.isWhitespace).reverse.dropWhile Char.isWhitespace).reverse⟩

/-- Python `" ".join` over character lists: the pieces separated by single spaces. -/
def joinSpaceChars : List (List Char) → List Char
  | [] => []
  | [x] => x
  | x :: y :: rest => x ++ ' ' :: joinSpaceChars (y :: rest)

/-- Python `" ".join(l)`, over the strings' character data. -/
def joinSpace (l : List String) : String := ⟨joinSpaceChars (l.map String.data)⟩

/-- A filtered OCR word as built at main.py:299-310: stripped text, derived
`x1 = x0 + width` and `bottom = top + height`, plus unused grouping hints. -/
structure Word where
  text : String
  x0 : ℤ
  x1 : ℤ
  top : ℤ
  bottom : ℤ
  block : ℤ
  par : ℤ
  line : ℤ
deriving DecidableEq

/-- The word filter of `_ocr_rows_and_highlights` (main.py:283-310): strip the
text, drop empty-text or sub-40-confidence tokens, derive the box corners. -/
def buildWords (raw : List RawWord) : List Word :=
  raw.filterMap (fun w =>
    let t := pyStrip w.text
    if t = "" ∨ w.conf < 40 then none
    else some ⟨t, w.left, w.left + w.width, w.topc, w.topc + w.height, w.block, w.par, w.line⟩)

/-- Stable insertion of a word into a key-sorted list: the new word goes before
the first element of larger-or-equal key, preserving original order on ties
exactly like Python's stable `list.sort(key=...)`. -/
def insertByKey (key : Word → ℤ) (w : Word) : List Word → List Word
  | [] => [w]
  | v :: vs => if key w ≤ key v then w :: v :: vs else v :: insertByKey key w vs

/-- Stable sort by an integer key (Python `list.sort(key=...)`). -/
def sortByKey (key : Word → ℤ) : List Word → List Word
  | [] => []
  | w :: ws => insertByKey key w (sortByKey key ws)

/-- Sorted insertion of a rational. -/
def insertQ (q : ℚ) : List ℚ → List ℚ
  | [] => [q]
  | x :: xs => if q ≤ x then q :: x :: xs else x :: insertQ q xs

/-- Sort a list of rationals ascending. -/
def sortQ : List ℚ → List ℚ
  | [] => []
  | x :: xs => insertQ x (sortQ xs)

/-- Python `statistics.median`: middle element for odd length, average of the
two middle elements for even length (callers never pass an empty list). -/
def pyMedian (l : List ℚ) : ℚ :=
  let s := sortQ l
  let n := s.length
  if n % 2 = 1 then s.getD (n / 2) 0
  else (s.getD (n / 2 - 1) 0 + s.getD (n / 2) 0) / 2

/-- The consecutive horizontal gaps of a (sorted) row:
`max(0, b["x0"] - a["x1"])` for adjacent word pairs (main.py:330-332). -/
def rowGaps (ws : List Word) : List ℤ :=
  (ws.zip ws.tail).map (fun p => max 0 (p.2.x0 - p.1.x1))

/-- `median_gap` of `_flush_row` (main.py:333): median of the gaps, 25 when
there are no measurable gaps. -/
def gapMedianOf (ws : List Word) : ℚ :=
  if rowGaps ws = [] then 25 else pyMedian ((rowGaps ws).map (fun g => (g : ℚ)))

/-- `gap_threshold` of `_flush_row` (main.py:334): `max(18, min(120, median_gap * 0.8))`. -/
def gapThresholdOf (ws : List Word) : ℚ :=
  max 18 (min 120 (gapMedianOf ws * (4/5)))

/-- The cell-accumulating walk of `_flush_row` (main.py:339-366), returning the
cell word-groups in order: a new cell starts when the gap from the previous
word's right edge exceeds the threshold; the final nonempty cell is flushed. -/
def splitCellsAux (thr : ℚ) : List Word → List Word → Option ℤ → List (List Word)
  | [], cellWords, _ => if cellWords = [] then [] else [cellWords]
  | w :: rest, cellWords, prevX1 =>
    match prevX1 with
    | some p =>
      if ((w.x0 - p : ℤ) : ℚ) > thr then
        cellWords :: splitCellsAux thr rest [w] (some w.x1)
      else splitCellsAux thr rest (cellWords ++ [w]) (some w.x1)
    | none => splitCellsAux thr rest (cellWords ++ [w]) (some w.x1)

/-- The cell word-groups of one OCR row: sort by `x0`, then walk with the
row's gap threshold (main.py:329-366). -/
def cellGroupsOf (ws : List Word) : List (List Word) :=
  splitCellsAux (gapThresholdOf (sortByKey (fun w => w.x0) ws))
    (sortByKey (fun w => w.x0) ws) [] none

/-- Declarative column grouping following the claim: walking the sorted words
left to right, a new cell begins exactly when the gap between the previous
word's right edge and the current word's left edge exceeds the threshold. -/
def specGroups (thr : ℚ) : List Word → List (List Word)
  | [] => []
  | [w] => [[w]]
  | w :: v :: rest =>
    match specGroups thr (v :: rest) with
    | g :: gs => if ((v.x0 - w.x1 : ℤ) : ℚ) > thr then [w] :: g :: gs else (w :: g) :: gs
    | [] => [[w]]

/-- Minimum of an integer list, first element as the seed (Python `min`). -/
def listMinZ : List ℤ → ℤ
  | [] => 0
  | x :: xs => xs.foldl min x

/-- Maximum of an integer list, first element as the seed (Python `max`). -/
def listMaxZ : List ℤ → ℤ
  | [] => 0
  | x :: xs => xs.foldl max x

/-- The tight union box of a cell's words (main.py:344-349). -/
def cellBbox (g : List Word) : Box :=
  { x0 := (listMinZ (g.map Word.x0) : ℤ),
    x1 := (listMaxZ (g.map Word.x1) : ℤ),
    top := (listMinZ (g.map Word.top) : ℤ),
    bottom := (listMaxZ (g.map Word.bottom) : ℤ) }

/-- An integer pixel box, as produced by `_pad_bbox`. -/
structure PBox where
  x0 : ℤ
  top : ℤ
  x1 : ℤ
  bottom : ℤ
deriving DecidableEq

/-- `_pad_bbox` (main.py:236-243): pad a box outward, truncate to ints, and
clamp into the image. -/
def pad_bbox (box : Box) (pad : ℚ) (maxWidth maxHeight : ℤ) : PBox :=
  { x0 := max 0 (pyInt (box.x0 - pad)),
    top := max 0 (pyInt (box.top - pad)),
    x1 := min maxWidth (pyInt (box.x1 + pad)),
    bottom := min maxHeight (pyInt (box.bottom + pad)) }

/-- Crop width `x1 - x0` (the PIL crop's horizontal size). -/
def cropW (p : PBox) : ℤ := p.x1 - p.x0

/-- Crop height `bottom - top` (the PIL crop's vertical size). -/
def cropH (p : PBox) : ℤ := p.bottom - p.top

/-- Sum of a channel over all pixels of the crop. -/
def cropSum (img : Image) (p : PBox) (f : ℚ × ℚ × ℚ → ℚ) : ℚ :=
  ∑ dy in Finset.range (cropH p).toNat, ∑ dx in Finset.range (cropW p).toNat,
    f (img.pix (p.x0 + (dx : ℤ)) (p.top + (dy : ℤ)))

/-- Number of pixels of the crop, as a rational. -/
def cropArea (p : PBox) : ℚ := (((cropW p).toNat * (cropH p).toNat : ℕ) : ℚ)

/-- Mean red channel over the crop (`ImageStat.Stat(region).mean[0]`). -/
def meanR (img : Image) (p : PBox) : ℚ := cropSum img p (fun t => t.1) / cropArea p

/-- Mean green channel over the crop. -/
def meanG (img : Image) (p : PBox) : ℚ := cropSum img p (fun t => t.2.1) / cropArea p

/-- Mean blue channel over the crop. -/
def meanB (img : Image) (p : PBox) : ℚ := cropSum img p (fun t => t.2.2) / cropArea p

/-- `maxc = max(r, g, b)` of the mean color (main.py:260). -/
def maxcOf (img : Image) (p : PBox) : ℚ := max (meanR img p) (max (meanG img p) (meanB img p))

/-- `minc = min(r, g, b)` of the mean color (main.py:261). -/
def mincOf (img : Image) (p : PBox) : ℚ := min (meanR img p) (min (meanG img p) (meanB img p))

/-- `brightness = (r + g + b) / 3.0` (main.py:259). -/
def brightnessOf (img : Image) (p : PBox) : ℚ := (meanR img p + meanG img p + meanB img p) / 3

/-- `saturation = 0 if maxc == 0 else (maxc - minc) / maxc` (main.py:262). -/
def saturationOf (img : Image) (p : PBox) : ℚ :=
  if maxcOf img p = 0 then 0 else (maxcOf img p - mincOf img p) / maxcOf img p

/-- `_estimate_highlight_color` (main.py:246-267): null without an image; pad
the box by 2 and clamp; null on a zero-size crop; classify by mean-pixel
saturation and brightness; encode the truncated means as `FFrrggbb`. -/
def estimate_highlight_color (imgOpt : Option Image) (bbox : Box) : Option String :=
  match imgOpt with
  | none => none
  | some img =>
    let padded := pad_bbox bbox 2 img.width img.height
    if cropW padded = 0 ∨ cropH padded = 0 then none
    else if (1/4 : ℚ) < saturationOf img padded ∧ (120 : ℚ) < brightnessOf img padded then
      some ("FF" ++ pyHex02 (pyInt (meanR img padded)) ++ pyHex02 (pyInt (meanG img padded)) ++
        pyHex02 (pyInt (meanB img padded)))
    else none

/-- The texts appended by `_flush_row` (main.py:343, 350, 358, 365): per cell
group, the words' texts joined by a single space, then stripped. -/
def flushRowTexts (ws : List Word) : List String :=
  (cellGroupsOf ws).map (fun g => pyStrip (joinSpace (g.map Word.text)))

/-- The colors appended by `_flush_row` (main.py:351, 366): per cell group,
the highlight estimate over the cell's union box. -/
def flushRowColors (imgOpt : Option Image) (ws : List Word) : List (Option String) :=
  (cellGroupsOf ws).map (fun g => estimate_highlight_color imgOpt (cellBbox g))

/-- `row_threshold` (main.py:319-320): `max(25, median word height * 0.8)`. -/
def rowThresholdOf (words : List Word) : ℚ :=
  max 25 (pyMedian (words.map (fun w => ((w.bottom - w.top : ℤ) : ℚ))) * (4/5))

/-- The row-accumulating walk of `_ocr_rows_and_highlights` (main.py:371-380):
a new row starts when a word's top exceeds the current row's first top by more
than the threshold; empty rows are never flushed. -/
def groupRowsAux (thr : ℚ) : List Word → List Word → ℤ → List (List Word)
  | [], cur, _ => if cur = [] then [] else [cur]
  | w :: rest, cur, curTop =>
    if ((w.top - curTop : ℤ) : ℚ) > thr then
      (if cur = [] then [] else [cur]) ++ groupRowsAux thr rest [w] w.top
    else groupRowsAux thr rest (cur ++ [w]) curTop

/-- Row grouping over the top-sorted words: the first word seeds `current_top`. -/
def groupRows (thr : ℚ) : List Word → List (List Word)
  | [] => []
  | w :: rest => groupRowsAux thr (w :: rest) [] w.top

/-- Module-level OCR availability flags (`_HAS_PYTESSERACT`, `_HAS_TESSERACT`,
main.py:14-26). -/
structure Env where
  hasPytesseract : Bool
  hasTesseract : Bool
deriving DecidableEq

/-- `_ocr_rows_and_highlights` (main.py:270-390): empty matrices when OCR is
unavailable, the image is missing, the OCR call raises, or no word survives
the filter; otherwise group rows, split each row into cells, and pad every
text row and its color row (by the text row's deficit) to the longest row. -/
def ocr_rows_and_highlights (env : Env) (imgOpt : Option Image)
    (ocrRaw : Option (List RawWord)) : List (List String) × List (List (Option String)) :=
  if !(env.hasPytesseract && env.hasTesseract) then ([], [])
  else match imgOpt with
  | none => ([], [])
  | some img =>
    match ocrRaw with
    | none => ([], [])
    | some raw =>
      let words := buildWords raw
      if words = [] then ([], [])
      else
        let groups := groupRows (rowThresholdOf words) (sortByKey (fun w => w.top) words)
        let rows := groups.map flushRowTexts
        let highlights := groups.map (flushRowColors (some img))
        let maxCols := (rows.map List.length).foldr max 0
        let padded := (rows.zip highlights).map (fun rh =>
          (rh.1 ++ List.replicate (maxCols - rh.1.length) "",
           rh.2 ++ List.replicate (maxCols - rh.1.length) none))
        (padded.map Prod.fst, padded.map Prod.snd)

/-- One parsed table result: title, text matrix, color matrix.  OCR text rows
(plain strings in the source) are injected into the common optional-cell type. -/
structure TableResult where
  title : String
  rows : List (List (Option String))
  highlights : List (List (Option String))
deriving DecidableEq

/-- `f"page-{page_idx}-table-{table_idx}"` (main.py:439). -/
def mkTitle (pageIdx tableIdx : ℕ) : String :=
  "page-" ++ toString pageIdx ++ "-table-" ++ toString tableIdx

/-- `f"page-{page_idx}-ocr-1"` (main.py:408). -/
def mkOcrTitle (pageIdx : ℕ) : String := "page-" ++ toString pageIdx ++ "-ocr-1"

/-- `_extract_tables_via_ocr` (main.py:393-412): no tables when OCR is
unavailable, rasterization failed, or reconstruction yields no rows; otherwise
a single table titled `page-{idx}-ocr-1`. -/
def extract_tables_via_ocr (env : Env) (page : Page) (pageIdx : ℕ) : List TableResult :=
  if !(env.hasPytesseract && env.hasTesseract) then []
  else match page.image with
  | none => []
  | some img =>
    let pr := ocr_rows_and_highlights env (some img) page.ocrRaw
    if pr.1 = [] then []
    else [⟨mkOcrTitle pageIdx, pr.1.map (fun row => row.map some), pr.2⟩]

/-- The vector-table loop of `parse_pdf_tables` (main.py:432-443): enumerate
tables from 1, skip a table whose extract is empty (the ordinal still
advances), otherwise emit title, rows, and the mapped highlight matrix. -/
def vectorTablesFrom (pageIdx : ℕ) (page : Page) (tableIdx : ℕ) : List Table → List TableResult
  | [] => []
  | t :: ts =>
    (if t.extract = [] then []
     else [⟨mkTitle pageIdx tableIdx, t.extract, map_highlights t page⟩]) ++
      vectorTablesFrom pageIdx page (tableIdx + 1) ts

/-- One page's contribution to `parse_pdf_tables` (main.py:422-443): when no
vector table was found and the page has no text, a nonempty OCR fallback
result is used; otherwise the vector-table loop (empty for an empty list). -/
def pageTables (env : Env) (pageIdx : ℕ) (page : Page) : List TableResult :=
  if page.findTables = [] ∧ page.hasText = false then
    if extract_tables_via_ocr env page pageIdx = [] then
      vectorTablesFrom pageIdx page 1 page.findTables
    else extract_tables_via_ocr env page pageIdx
  else vectorTablesFrom pageIdx page 1 page.findTables

/-- The page loop of `parse_pdf_tables` (main.py:421-444), pages enumerated from 1. -/
def parsePagesFrom (env : Env) (pageIdx : ℕ) : List Page → List TableResult
  | [] => []
  | p :: ps => pageTables env pageIdx p ++ parsePagesFrom env (pageIdx + 1) ps

/-- `parse_pdf_tables` (main.py:415-444): concatenation of the per-page
contributions in page order. -/
def parse_pdf_tables (env : Env) (pages : List Page) : List TableResult :=
  parsePagesFrom env 1 pages

/-- A table with a jagged text matrix (row 0 has two cells, row 1 one). -/
def tableJag : Table := { extract := [[some "a", some "b"], [some "c"]], rows := [], cols := [] }

/-- A page with no rectangles, annotations, tables, text, image, or OCR data. -/
def pageEmpty : Page :=
  { rects := [], annots := [], findTables := [], hasText := false, image := none, ocrRaw := none }

/-- A red-filled rectangle covering `[0,10] x [0,10]`. -/
def rectRed : RawRect :=
  { x0 := some 0, x1 := some 10, top := some 0, bottom := some 10, y0 := none, y1 := none,
    nonStrokingColor := some [1, 0, 0], strokeColor := none }

/-- A blue-filled rectangle covering the same `[0,10] x [0,10]` region. -/
def rectBlue : RawRect :=
  { x0 := some 0, x1 := some 10, top := some 0, bottom := some 10, y0 := none, y1 := none,
    nonStrokingColor := some [0, 0, 1], strokeColor := none }

/-- A one-cell table whose row and column metadata are 4-element sequences. -/
def tableOneCell : Table :=
  { extract := [[some "x"]],
    rows := [RowColObj.seq4 0 0 10 10], cols := [RowColObj.seq4 0 0 10 10] }

/-- A page carrying two overlapping colored rectangles and `tableOneCell`. -/
def pageTwoRects : Page :=
  { rects := [rectRed, rectBlue], annots := [], findTables := [tableOneCell],
    hasText := true, image := none, ocrRaw := none }

/-- A vector table whose extract is empty. -/
def tableEmptyEx : Table := { extract := [], rows := [], cols := [] }

/-- A page with an empty-extract table followed by a nonempty one. -/
def pageTwoTables : Page :=
  { rects := [], annots := [], findTables := [tableEmptyEx, tableOneCell],
    hasText := true, image := none, ocrRaw := none }

/-- An environment with the OCR engine unavailable. -/
def envOff : Env := { hasPytesseract := false, hasTesseract := false }

/-- An environment with the OCR engine available. -/
def envOn : Env := { hasPytesseract := true, hasTesseract := true }

/-- A 4x4 image that is uniformly the saturated yellow `(255, 255, 170)`. -/
def imgYellow : Image := { width := 4, height := 4, pix := fun _ _ => (255, 255, 170) }

/-- A 4x4 image that is uniformly white. -/
def imgWhite : Image := { width := 4, height := 4, pix := fun _ _ => (255, 255, 255) }

/-- A small box inside the 4x4 images. -/
def bboxSmall : Box := { x0 := 0, x1 := 2, top := 0, bottom := 2 }

/-- A word at the left of a row. -/
def wordL : Word :=
  { text := "a", x0 := 0, x1 := 10, top := 0, bottom := 10,
    block := 0, par := 0, line := 0 }

/-- A word far to the right of `wordL` (gap 40). -/
def wordR : Word :=
  { text := "b", x0 := 50, x1 := 60, top := 0, bottom := 10,
    block := 0, par := 0, line := 0 }

/-- C6: `overlaps(a,b)` is true iff NOT (`a.right <= b.left` OR `a.left >= b.right`
OR `a.top >= b.bottom` OR `a.bottom <= b.top`); boxes that merely touch along an
edge are reported as non-overlapping, so the test is a strict interior-overlap test. -/
theorem overlaps_iff_not_disjoint_and_strict :
    (∀ a b : Box, boxes_overlap a b = true ↔
      ¬(a.x1 ≤ b.x0 ∨ a.x0 ≥ b.x1 ∨ a.top ≥ b.bottom ∨ a.bottom ≤ b.top)) ∧
    (∀ a b : Box, a.x1 = b.x0 → boxes_overlap a b = false) ∧
    (∀ a b : Box, a.x0 = b.x1 → boxes_overlap a b = false) ∧
    (∀ a b : Box, a.top = b.bottom → boxes_overlap a b = false) ∧
    (∀ a b : Box, a.bottom = b.top → boxes_overlap a b = false) := by
  refine ⟨fun a b => ?_, fun a b h => ?_, fun a b h => ?_, fun a b h => ?_, fun a b h => ?_⟩
  · simp [boxes_overlap, and_assoc]
  · simp [boxes_overlap, h]
  · simp [boxes_overlap, h, le_refl]
  · simp [boxes_overlap, h, le_refl]
  · simp [boxes_overlap, h, le_refl]

/-- Witness for C6 at concrete boxes: two boxes sharing only the edge `x1 = x0`
do not overlap. -/
theorem overlaps_iff_not_disjoint_and_strict_witness :
    boxes_overlap ⟨0, 1, 0, 1⟩ ⟨1, 2, 0, 1⟩ = false :=
  overlaps_iff_not_disjoint_and_strict.2.1 ⟨0, 1, 0, 1⟩ ⟨1, 2, 0, 1⟩ rfl

/-- C2 counterexample: the claim states `colorToHex([0.5]) == "FF808080"`
(rounding), but the code truncates via `int(...)`, giving `"FF7F7F7F"`. -/
theorem color_to_hex_half_not_rounded :
    color_to_hex (some [1/2]) ≠ some "FF808080" ∧
    color_to_hex (some [1/2]) = some "FF7F7F7F" := by
  have h : ((1/2 : ℚ) * 255) = Rat.divInt 255 2 := by norm_num [Rat.divInt]
  simp only [color_to_hex, h]
  constructor
  · decide
  · decide

/-- C2 amended: components are mapped by `int(component*255)` (truncation toward
zero, not rounding) with no clamping; a single grayscale component is replicated,
3+-element input uses the first three channels, a 2-element input raises inside
the guarded block and yields null, and `null`/`[]` yield null (never raising).
In particular `[0,0,0] -> FF000000`, `[1,1,1] -> FFFFFFFF`, `[0.5] -> FF7F7F7F`,
and the unclamped `[2,0,0] -> FF1FE0000`. -/
theorem color_to_hex_truncates_unclamped :
    color_to_hex none = none ∧
    color_to_hex (some []) = none ∧
    (∀ a b : ℚ, color_to_hex (some [a, b]) = none) ∧
    (∀ c : ℚ, color_to_hex (some [c]) =
      some ("FF" ++ pyHex02 (pyInt (c * 255)) ++ pyHex02 (pyInt (c * 255)) ++ pyHex02 (pyInt (c * 255)))) ∧
    (∀ r g b : ℚ, ∀ rest : List ℚ, color_to_hex (some (r :: g :: b :: rest)) =
      some ("FF" ++ pyHex02 (pyInt (r * 255)) ++ pyHex02 (pyInt (g * 255)) ++ pyHex02 (pyInt (b * 255)))) ∧
    color_to_hex (some [0, 0, 0]) = some "FF000000" ∧
    color_to_hex (some [1, 1, 1]) = some "FFFFFFFF" ∧
    color_to_hex (some [1/2]) = some "FF7F7F7F" ∧
    color_to_hex (some [2, 0, 0]) = some "FF1FE0000" := by
  have h05 : ((1/2 : ℚ) * 255) = Rat.divInt 255 2 := by norm_num [Rat.divInt]
  have h0 : ((0 : ℚ) * 255) = Rat.divInt 0 1 := by norm_num [Rat.divInt]
  have h1 : ((1 : ℚ) * 255) = Rat.divInt 255 1 := by norm_num [Rat.divInt]
  have h2 : ((2 : ℚ) * 255) = Rat.divInt 510 1 := by norm_num [Rat.divInt]
  refine ⟨rfl, rfl, fun a b => rfl, fun c => rfl, fun r g b rest => rfl, ?_, ?_, ?_, ?_⟩
  · simp only [color_to_hex, h0]; decide
  · simp only [color_to_hex, h1]; decide
  · simp only [color_to_hex, h05]; decide
  · simp only [color_to_hex, h2, h0]; decide

/-- C8 counterexample: the claim says the region's top falls back to `y1`
exactly when the `top` field is absent, but the code uses Python `or`
(main.py:88), so a present `top` of `0.0` also falls back: here `top` is
present (`some 0`) yet the produced region's top is `y1 = 1`. -/
theorem annot_top_fallback_on_falsy_zero :
    annotFalsyTop.top = some 0 ∧
    rectangles_with_color pageFalsyTop = [annotToRect annotFalsyTop] ∧
    (annotToRect annotFalsyTop).top ≠ annotFalsyTop.top ∧
    (annotToRect annotFalsyTop).top = annotFalsyTop.y1 := by
  refine ⟨rfl, ?_, ?_, ?_⟩
  · decide
  · decide
  · decide

/-- C8 amended: every highlight-subtype annotation becomes a region using the
annotation's fill color and its own `x0`/`x1` box, and `top`/`bottom` fall back
to `y1`/`y0` exactly when the dedicated fields are absent OR equal to zero
(Python falsiness), not only when absent. -/
theorem highlight_annot_region_fields (page : Page) (a : Annot)
    (hmem : a ∈ page.annots) (hsub : pyLower a.subtype = "highlight") :
    annotToRect a ∈ rectangles_with_color page ∧
    (annotToRect a).x0 = a.x0 ∧
    (annotToRect a).x1 = a.x1 ∧
    (annotToRect a).nonStrokingColor = a.color ∧
    (annotToRect a).top = (if a.top = none ∨ a.top = some 0 then a.y1 else a.top) ∧
    (annotToRect a).bottom = (if a.bottom = none ∨ a.bottom = some 0 then a.y0 else a.bottom) := by
  have hor : ∀ x y : Option ℚ, pyOrQ x y = if x = none ∨ x = some 0 then y else x := by
    intro x y
    match x with
    | none => simp [pyOrQ, pyTruthyQ]
    | some q =>
      by_cases hq : q = 0
      · subst hq; simp [pyOrQ, pyTruthyQ]
      · simp [pyOrQ, pyTruthyQ, hq]
  refine ⟨?_, rfl, rfl, rfl, hor a.top a.y1, hor a.bottom a.y0⟩
  unfold rectangles_with_color
  refine List.mem_append_right _ (List.mem_map_of_mem annotToRect ?_)
  exact List.mem_filter.mpr ⟨hmem, by simp [hsub]⟩

/-- Witness for C8 amended at a concrete page: the highlight annotation with a
falsy top indeed contributes its region, with the stated field values. -/
theorem highlight_annot_region_fields_witness :
    annotToRect annotFalsyTop ∈ rectangles_with_color pageFalsyTop ∧
    (annotToRect annotFalsyTop).x0 = annotFalsyTop.x0 ∧
    (annotToRect annotFalsyTop).x1 = annotFalsyTop.x1 ∧
    (annotToRect annotFalsyTop).nonStrokingColor = annotFalsyTop.color ∧
    (annotToRect annotFalsyTop).top =
      (if annotFalsyTop.top = none ∨ annotFalsyTop.top = some 0 then annotFalsyTop.y1 else annotFalsyTop.top) ∧
    (annotToRect annotFalsyTop).bottom =
      (if annotFalsyTop.bottom = none ∨ annotFalsyTop.bottom = some 0 then annotFalsyTop.y0 else annotFalsyTop.bottom) :=
  highlight_annot_region_fields pageFalsyTop annotFalsyTop (by decide) (by decide)

/-- Any row of the text matrix is at most the longest row length. -/
theorem length_le_maxRowLen {data : List (List (Option String))} {r : List (Option String)}
    (h : r ∈ data) : r.length ≤ maxRowLen data := by
  induction data with
  | nil => cases h
  | cons d ds ih =>
    rcases List.mem_cons.mp h with h | h
    · subst h; simp [maxRowLen]
    · exact le_trans (ih h) (by simp [maxRowLen])

/-- The `getD`-fetched row is at most the longest row length. -/
theorem getD_length_le_maxRowLen (data : List (List (Option String))) (r : ℕ) :
    (data.getD r []).length ≤ maxRowLen data := by
  rw [List.getD_eq_get?]
  cases h : data.get? r with
  | none => simp
  | some row => simpa using length_le_maxRowLen (List.get?_mem h)

/-- `get?` within the bounds of a replicated list. -/
theorem get?_replicate_of_lt {α : Type _} (a : α) {n m : ℕ} (h : m < n) :
    (List.replicate n a).get? m = some a := by
  induction n generalizing m with
  | zero => exact absurd h (Nat.not_lt_zero m)
  | succ k ih =>
    cases m with
    | zero => rfl
    | succ j => exact ih (Nat.lt_of_succ_lt_succ h)

/-- A highlight row always has `cols` entries. -/
theorem mapRow_length (rects : List RawRect) (tcols : List RowColObj)
    (rb : Option (ℚ × ℚ)) (rowLen cols : ℕ) :
    (mapRow rects tcols rb rowLen cols).length = cols := by
  simp [mapRow]

/-- Entry of a highlight row past the text row's own length is null. -/
theorem mapRow_get?_beyond (rects : List RawRect) (tcols : List RowColObj)
    (rb : Option (ℚ × ℚ)) (rowLen cols c : ℕ) (hc : c < cols) (hge : rowLen ≤ c) :
    (mapRow rects tcols rb rowLen cols).get? c = some none := by
  unfold mapRow
  rw [List.get?_map, List.get?_range hc]
  cases rb with
  | none => rfl
  | some rtb => simp [Nat.not_lt.mpr hge]

/-- Entry of a highlight row at a resolvable cell is the region scan's result. -/
theorem mapRow_get?_resolved (rects : List RawRect) (tcols : List RowColObj)
    (rt rbt : ℚ) (rowLen cols c : ℕ) (hc : c < cols) (hlt : c < rowLen)
    (cx0 cx1 : ℚ) (hcb : col_bounds tcols c = some (cx0, cx1)) :
    (mapRow rects tcols (some (rt, rbt)) rowLen cols).get? c =
      some (firstMatch rects ⟨cx0, cx1, rt, rbt⟩) := by
  unfold mapRow
  rw [List.get?_map, List.get?_range hc]
  simp [hlt, hcb]

/-- `_map_highlights` in the no-candidate-regions branch. -/
theorem map_highlights_eq_of_rects_nil (t : Table) (p : Page)
    (hd : t.extract ≠ []) (hr : rectangles_with_color p = []) :
    map_highlights t p = t.extract.map (fun _ => List.replicate (maxRowLen t.extract) none) := by
  simp only [map_highlights]
  rw [if_neg hd, if_pos hr]

/-- `_map_highlights` in the main branch. -/
theorem map_highlights_eq_of_ne (t : Table) (p : Page)
    (hd : t.extract ≠ []) (hr : rectangles_with_color p ≠ []) :
    map_highlights t p = (List.range t.extract.length).map (fun r =>
      mapRow (rectangles_with_color p) t.cols (row_bounds t.rows r)
        (t.extract.getD r []).length (maxRowLen t.extract)) := by
  simp only [map_highlights]
  rw [if_neg hd, if_neg hr]

/-- C9: for a non-empty text matrix the mapped color matrix is rectangular:
one color row per text row, every color row exactly as long as the longest
text row (even when text rows are jagged and shorter), and entries at or past
a text row's own length are null. -/
theorem color_matrix_rectangular (t : Table) (p : Page) (h : t.extract ≠ []) :
    (map_highlights t p).length = t.extract.length ∧
    (∀ row ∈ map_highlights t p, row.length = maxRowLen t.extract) ∧
    (∀ r c row, (map_highlights t p).get? r = some row →
      (t.extract.getD r []).length ≤ c → c < maxRowLen t.extract →
      row.get? c = some none) := by
  by_cases hr : rectangles_with_color p = []
  · rw [map_highlights_eq_of_rects_nil t p h hr]
    refine ⟨by simp, ?_, ?_⟩
    · intro row hrow
      rcases List.mem_map.mp hrow with ⟨a, _, rfl⟩
      simp
    · intro r c row hget hle hlt
      rw [List.get?_map] at hget
      rcases Option.map_eq_some'.mp hget with ⟨a, _, rfl⟩
      exact get?_replicate_of_lt none hlt
  · rw [map_highlights_eq_of_ne t p h hr]
    refine ⟨by simp, ?_, ?_⟩
    · intro row hrow
      rcases List.mem_map.mp hrow with ⟨a, _, rfl⟩
      exact mapRow_length _ _ _ _ _
    · intro r c row hget hle hlt
      rw [List.get?_map] at hget
      rcases Option.map_eq_some'.mp hget with ⟨a, ha, rfl⟩
      have hrl : r < t.extract.length := by
        by_contra hcon
        rw [List.get?_eq_none.mpr (by simpa using Nat.le_of_not_lt hcon)] at ha
        cases ha
      rw [List.get?_range hrl] at ha
      cases ha
      exact mapRow_get?_beyond _ _ _ _ _ _ hlt hle

/-- Witness for C9 at a concrete jagged table: the conclusion instantiated at
`tableJag` on an empty page. -/
theorem color_matrix_rectangular_witness :
    (map_highlights tableJag pageEmpty).length = tableJag.extract.length ∧
    (∀ row ∈ map_highlights tableJag pageEmpty, row.length = maxRowLen tableJag.extract) ∧
    (∀ r c row, (map_highlights tableJag pageEmpty).get? r = some row →
      (tableJag.extract.getD r []).length ≤ c → c < maxRowLen tableJag.extract →
      row.get? c = some none) :=
  color_matrix_rectangular tableJag pageEmpty (by decide)

/-- C1 counterexample: on the jagged table `[["a","b"],["c"]]` the vector-path
color matrix row 1 has 2 entries while the text row 1 has 1, so the claimed
per-row length equality fails. -/
theorem color_row_length_differs_on_jagged_text :
    ((map_highlights tableJag pageEmpty).get? 1).map List.length ≠
      (tableJag.extract.get? 1).map List.length := by
  decide

/-- The region scan equals: find the first matching region, then its color. -/
theorem firstMatch_eq_find_bind (rects : List RawRect) (cell : Box) :
    firstMatch rects cell = ((rects.find? (rectMatches cell)).bind rectHex) := by
  induction rects with
  | nil => rfl
  | cons r rs ih =>
    cases hh : rectHex r with
    | none =>
      have hm : rectMatches cell r = false := by
        cases hn : normalize_box r <;> simp [rectMatches, hh, hn]
      cases hn : normalize_box r <;>
        simp [firstMatch, List.find?, hh, hn, hm, ih]
    | some cc =>
      cases hn : normalize_box r with
      | none =>
        have hm : rectMatches cell r = false := by simp [rectMatches, hh, hn]
        simp [firstMatch, List.find?, hh, hn, hm, ih]
      | some rb =>
        by_cases hov : boxes_overlap cell rb = true
        · have hm : rectMatches cell r = true := by simp [rectMatches, hh, hn, hov]
          simp [firstMatch, List.find?, hh, hn, hov, hm]
        · have hm : rectMatches cell r = false := by
            simp [rectMatches, hh, hn]
            exact Bool.not_eq_true _ ▸ (by simpa using hov)
          simp [firstMatch, List.find?, hh, hn, Bool.not_eq_true _ ▸ hov, hm, ih]

/-- A non-matching head region is skipped by the scan. -/
theorem firstMatch_cons_skip {q : RawRect} {cell : Box} (h : rectMatches cell q = false)
    (rs : List RawRect) : firstMatch (q :: rs) cell = firstMatch rs cell := by
  unfold rectMatches at h
  cases hh : rectHex q <;> cases hn : normalize_box q <;>
    rw [hh, hn] at h <;> simp [firstMatch, hh, hn]
  intro hov
  simp at h
  simp [h] at hov

/-- A matching head region ends the scan with its resolved color. -/
theorem firstMatch_cons_hit {q : RawRect} {cell : Box} (h : rectMatches cell q = true)
    (rs : List RawRect) : firstMatch (q :: rs) cell = rectHex q := by
  unfold rectMatches at h
  cases hh : rectHex q <;> cases hn : normalize_box q <;>
    rw [hh, hn] at h <;> simp [firstMatch, hh, hn]
  · cases h
  · cases h
  · cases h
  · intro hov
    simp at h
    simp [h] at hov

/-- C3: for every resolvable cell, the assigned color is that of the first
candidate region (in original collection order) whose resolved color is
non-null and whose normalized box overlaps the cell box; the scan stops at the
first match, so later regions never change the result, and with no matching
region the cell stays null. -/
theorem first_match_region_assigns_cell_color :
    (∀ (t : Table) (p : Page) (r c : ℕ) (rt rb cx0 cx1 : ℚ),
      t.extract ≠ [] → rectangles_with_color p ≠ [] →
      r < t.extract.length → c < (t.extract.getD r []).length →
      row_bounds t.rows r = some (rt, rb) →
      col_bounds t.cols c = some (cx0, cx1) →
      ((map_highlights t p).get? r).bind (fun row => row.get? c) =
        some (((rectangles_with_color p).find? (rectMatches ⟨cx0, cx1, rt, rb⟩)).bind rectHex)) ∧
    (∀ (cell : Box) (pre post : List RawRect) (r : RawRect), rectMatches cell r = true →
      firstMatch (pre ++ r :: post) cell = firstMatch (pre ++ [r]) cell) ∧
    (∀ (cell : Box) (rects : List RawRect), (∀ r ∈ rects, rectMatches cell r = false) →
      firstMatch rects cell = none) := by
  refine ⟨?_, ?_, ?_⟩
  · intro t p r c rt rb cx0 cx1 hd hr hrl hcl hrb hcb
    rw [map_highlights_eq_of_ne t p hd hr]
    rw [List.get?_map, List.get?_range hrl]
    have hc' : c < maxRowLen t.extract :=
      Nat.lt_of_lt_of_le hcl (getD_length_le_maxRowLen _ _)
    simp only [Option.map_some', Option.some_bind]
    rw [hrb]
    rw [mapRow_get?_resolved _ _ _ _ _ _ _ hc' hcl _ _ hcb]
    rw [firstMatch_eq_find_bind]
  · intro cell pre post r hm
    induction pre with
    | nil =>
      rw [List.nil_append, List.nil_append, firstMatch_cons_hit hm, firstMatch_cons_hit hm]
    | cons q pre ih =>
      rw [List.cons_append, List.cons_append]
      cases hq : rectMatches cell q
      · rw [firstMatch_cons_skip hq, firstMatch_cons_skip hq]
        exact ih
      · rw [firstMatch_cons_hit hq, firstMatch_cons_hit hq]
  · intro cell rects hall
    rw [firstMatch_eq_find_bind]
    rw [List.find?_eq_none.mpr (fun r hr => by simp [hall r hr])]
    rfl

/-- Witness for C3 at a concrete one-cell table under two overlapping colored
rectangles: the entry equals the first-match scan result. -/
theorem first_match_region_assigns_cell_color_witness :
    ((map_highlights tableOneCell pageTwoRects).get? 0).bind (fun row => row.get? 0) =
      some (((rectangles_with_color pageTwoRects).find? (rectMatches ⟨0, 10, 0, 10⟩)).bind rectHex) :=
  first_match_region_assigns_cell_color.1 tableOneCell pageTwoRects 0 0 0 10 0 10
    (by decide) (by decide) (by decide) (by decide) rfl rfl

/-- Every vector-loop result carries a nonempty text matrix. -/
theorem vectorTablesFrom_rows_ne (pageIdx : ℕ) (page : Page) (s : ℕ) (ts : List Table) :
    ∀ res ∈ vectorTablesFrom pageIdx page s ts, res.rows ≠ [] := by
  induction ts generalizing s with
  | nil => intro res h; cases h
  | cons t ts ih =>
    intro res h
    unfold vectorTablesFrom at h
    rcases List.mem_append.mp h with h | h
    · by_cases he : t.extract = []
      · rw [if_pos he] at h; cases h
      · rw [if_neg he] at h
        rcases List.mem_singleton.mp h with rfl
        exact he
    · exact ih (s + 1) res h

/-- An in-bounds nonempty-extract table appears in the vector loop with its
original ordinal. -/
theorem vectorTablesFrom_mem (pageIdx : ℕ) (page : Page) :
    ∀ (ts : List Table) (s j : ℕ) (t : Table), ts.get? j = some t → t.extract ≠ [] →
      (⟨mkTitle pageIdx (s + j), t.extract, map_highlights t page⟩ : TableResult) ∈
        vectorTablesFrom pageIdx page s ts := by
  intro ts
  induction ts with
  | nil => intro s j t h; cases h
  | cons u ts ih =>
    intro s j t h hne
    cases j with
    | zero =>
      rcases Option.some.inj h with rfl
      unfold vectorTablesFrom
      rw [if_neg hne]
      exact List.mem_append_left _ (List.mem_singleton.mpr rfl)
    | succ j =>
      have := ih (s + 1) j t h hne
      unfold vectorTablesFrom
      refine List.mem_append_right _ ?_
      have harith : s + 1 + j = s + (j + 1) := by omega
      rwa [harith] at this

/-- The vector loop emits exactly one result per nonempty-extract table. -/
theorem vectorTablesFrom_length (pageIdx : ℕ) (page : Page) :
    ∀ (ts : List Table) (s : ℕ),
      (vectorTablesFrom pageIdx page s ts).length =
        (ts.filter (fun t => !t.extract.isEmpty)).length := by
  intro ts
  induction ts with
  | nil => intro s; rfl
  | cons t ts ih =>
    intro s
    unfold vectorTablesFrom
    by_cases he : t.extract = []
    · rw [if_pos he]
      simp [List.filter, List.isEmpty_iff.mpr he, ih (s + 1)]
    · rw [if_neg he]
      have : t.extract.isEmpty = false := by
        cases hx : t.extract with
        | nil => exact absurd hx he
        | cons a l => rfl
      simp [List.filter, this, ih (s + 1)]

/-- The OCR fallback result also carries nonempty text matrices. -/
theorem extract_tables_via_ocr_rows_ne (env : Env) (page : Page) (pageIdx : ℕ) :
    ∀ res ∈ extract_tables_via_ocr env page pageIdx, res.rows ≠ [] := by
  intro res h
  unfold extract_tables_via_ocr at h
  by_cases hflag : (!(env.hasPytesseract && env.hasTesseract)) = true
  · rw [if_pos hflag] at h; cases h
  · rw [if_neg hflag] at h
    cases himg : page.image with
    | none => rw [himg] at h; cases h
    | some img =>
      rw [himg] at h
      simp only at h
      by_cases hrows : (ocr_rows_and_highlights env (some img) page.ocrRaw).1 = []
      · rw [if_pos hrows] at h; cases h
      · rw [if_neg hrows] at h
        rcases List.mem_singleton.mp h with rfl
        simpa using hrows

/-- Every page contribution carries a nonempty text matrix. -/
theorem pageTables_rows_ne (env : Env) (pageIdx : ℕ) (page : Page) :
    ∀ res ∈ pageTables env pageIdx page, res.rows ≠ [] := by
  intro res h
  unfold pageTables at h
  split at h
  · split at h
    · exact vectorTablesFrom_rows_ne pageIdx page 1 page.findTables res h
    · exact extract_tables_via_ocr_rows_ne env page pageIdx res h
  · exact vectorTablesFrom_rows_ne pageIdx page 1 page.findTables res h

/-- Every parsed result carries a nonempty text matrix. -/
theorem parse_rows_ne (env : Env) :
    ∀ (pages : List Page) (i : ℕ) (res : TableResult),
      res ∈ parsePagesFrom env i pages → res.rows ≠ [] := by
  intro pages
  induction pages with
  | nil => intro i res h; cases h
  | cons p ps ih =>
    intro i res h
    rcases List.mem_append.mp h with h | h
    · exact pageTables_rows_ne env i p res h
    · exact ih (i + 1) res h

/-- C10: a vector-detected table with an empty extracted text matrix is
dropped entirely (no result entry anywhere has an empty text matrix), while
the table ordinal still counts it, so a later table keeps its original index:
a nonempty table at position j is emitted with ordinal j+1 regardless of
earlier empty tables, and the number of emitted entries equals the number of
nonempty-extract tables.  Concretely, a page whose tables are [empty, good]
yields exactly one entry titled `page-1-table-2`. -/
theorem empty_extract_table_dropped_ordinal_kept :
    (∀ (env : Env) (pages : List Page) (res : TableResult),
      res ∈ parse_pdf_tables env pages → res.rows ≠ []) ∧
    (∀ (pageIdx : ℕ) (page : Page) (j : ℕ) (t : Table),
      page.findTables.get? j = some t → t.extract ≠ [] →
      (⟨mkTitle pageIdx (j + 1), t.extract, map_highlights t page⟩ : TableResult) ∈
        vectorTablesFrom pageIdx page 1 page.findTables) ∧
    (∀ (pageIdx : ℕ) (page : Page),
      (vectorTablesFrom pageIdx page 1 page.findTables).length =
        (page.findTables.filter (fun t => !t.extract.isEmpty)).length) ∧
    pageTables envOff 1 pageTwoTables =
      [⟨mkTitle 1 2, tableOneCell.extract, [[none]]⟩] := by
  refine ⟨?_, ?_, ?_, ?_⟩
  · intro env pages res h
    exact parse_rows_ne env pages 1 res h
  · intro pageIdx page j t h hne
    have := vectorTablesFrom_mem pageIdx page page.findTables 1 j t h hne
    have harith : 1 + j = j + 1 := by omega
    rwa [harith] at this
  · intro pageIdx page
    exact vectorTablesFrom_length pageIdx page page.findTables 1
  · decide

/-- Witness for C10 at a concrete page: the nonempty second table of
`pageTwoTables` is emitted with its original ordinal 2. -/
theorem empty_extract_table_dropped_ordinal_kept_witness :
    (⟨mkTitle 1 2, tableOneCell.extract, map_highlights tableOneCell pageTwoTables⟩ : TableResult) ∈
      vectorTablesFrom 1 pageTwoTables 1 pageTwoTables.findTables :=
  empty_extract_table_dropped_ordinal_kept.2.1 1 pageTwoTables 1 tableOneCell rfl (by decide)

/-- Appending a page to the document processes it after the others, with the
next page index. -/
theorem parsePagesFrom_append (env : Env) (page : Page) :
    ∀ (pages : List Page) (i : ℕ),
      parsePagesFrom env i (pages ++ [page]) =
        parsePagesFrom env i pages ++ pageTables env (i + pages.length) page := by
  intro pages
  induction pages with
  | nil => intro i; simp [parsePagesFrom]
  | cons p ps ih =>
    intro i
    rw [List.cons_append]
    unfold parsePagesFrom
    rw [ih (i + 1)]
    have harith : i + 1 + ps.length = i + (ps.length + 1) := by omega
    simp [harith, List.append_assoc]

/-- The OCR fallback yields no tables when the engine is unavailable, the
page image is missing, or reconstruction yields no rows. -/
theorem extract_tables_via_ocr_eq_nil (env : Env) (page : Page) (pageIdx : ℕ)
    (h : ¬(env.hasPytesseract = true ∧ env.hasTesseract = true) ∨ page.image = none ∨
      (ocr_rows_and_highlights env page.image page.ocrRaw).1 = []) :
    extract_tables_via_ocr env page pageIdx = [] := by
  unfold extract_tables_via_ocr
  by_cases hflag : (!(env.hasPytesseract && env.hasTesseract)) = true
  · rw [if_pos hflag]
  · rw [if_neg hflag]
    cases himg : page.image with
    | none => rfl
    | some img =>
      simp only
      rcases h with h | h | h
      · exact absurd (by cases hx : env.hasPytesseract <;> cases hy : env.hasTesseract <;>
          simp [hx, hy] at hflag ⊢) h
      · rw [himg] at h; cases h
      · rw [himg] at h
        rw [if_pos h]

/-- C4: a page on which vector detection finds nothing and which has no
extractable text contributes exactly zero tables when the OCR engine is
unavailable, or rasterization failed, or OCR reconstruction yields no rows;
document-level processing is unaffected (appending such a page to any
document leaves the result unchanged). -/
theorem ocr_unavailable_page_contributes_nothing (env : Env) (page : Page)
    (htab : page.findTables = []) (htext : page.hasText = false)
    (h : ¬(env.hasPytesseract = true ∧ env.hasTesseract = true) ∨ page.image = none ∨
      (ocr_rows_and_highlights env page.image page.ocrRaw).1 = []) :
    (∀ pageIdx, pageTables env pageIdx page = []) ∧
    (∀ pages, parse_pdf_tables env (pages ++ [page]) = parse_pdf_tables env pages) := by
  have hpt : ∀ pageIdx, pageTables env pageIdx page = [] := by
    intro pageIdx
    unfold pageTables
    rw [if_pos ⟨htab, htext⟩, if_pos (extract_tables_via_ocr_eq_nil env page pageIdx h), htab]
    rfl
  refine ⟨hpt, ?_⟩
  intro pages
  unfold parse_pdf_tables
  rw [parsePagesFrom_append, hpt, List.append_nil]

/-- Witness for C4: with the OCR engine absent, appending the blank page to
the empty document yields no tables and changes nothing. -/
theorem ocr_unavailable_page_contributes_nothing_witness :
    (∀ pageIdx, pageTables envOff pageIdx pageEmpty = []) ∧
    (∀ pages, parse_pdf_tables envOff (pages ++ [pageEmpty]) = parse_pdf_tables envOff pages) :=
  ocr_unavailable_page_contributes_nothing envOff pageEmpty rfl rfl (Or.inl (by simp [envOff]))

/-- The head surviving `dropWhile` fails the predicate. -/
theorem dropWhile_head_not {α : Type _} (p : α → Bool) :
    ∀ (l : List α) (c : α), (l.dropWhile p).head? = some c → p c = false := by
  intro l
  induction l with
  | nil => intro c h; cases h
  | cons a l ih =>
    intro c h
    by_cases ha : p a = true
    · rw [List.dropWhile_cons_of_pos ha] at h
      exact ih c h
    · rw [List.dropWhile_cons_of_neg ha] at h
      rcases Option.some.inj h with rfl
      exact Bool.not_eq_true _ ▸ ha

/-- `dropWhile` keeps a list whose head fails the predicate. -/
theorem dropWhile_eq_self_of_head {α : Type _} (p : α → Bool) (l : List α)
    (h : ∀ c, l.head? = some c → p c = false) : l.dropWhile p = l := by
  cases l with
  | nil => rfl
  | cons a l => exact List.dropWhile_cons_of_neg (by simp [h a rfl])

/-- A string whose outer characters are not whitespace is fixed by `strip`. -/
theorem pyStrip_eq_of_ends (s : String)
    (h1 : ∀ c, s.data.head? = some c → c.isWhitespace = false)
    (h2 : ∀ c, s.data.getLast? = some c → c.isWhitespace = false) :
    pyStrip s = s := by
  unfold pyStrip
  rw [dropWhile_eq_self_of_head _ _ h1]
  rw [dropWhile_eq_self_of_head _ _ (fun c hc => h2 c (by rwa [List.head?_reverse] at hc))]
  rw [List.reverse_reverse]

/-- The outer characters of a stripped string are not whitespace. -/
theorem pyStrip_ends (s : String) :
    (∀ c, (pyStrip s).data.head? = some c → c.isWhitespace = false) ∧
    (∀ c, (pyStrip s).data.getLast? = some c → c.isWhitespace = false) := by
  unfold pyStrip
  constructor
  · intro c h
    simp only [List.head?_reverse] at h
    have hdecomp := List.takeWhile_append_dropWhile Char.isWhitespace
      ((s.data.dropWhile Char.isWhitespace).reverse)
    set r := (s.data.dropWhile Char.isWhitespace).reverse.dropWhile Char.isWhitespace with hr
    cases hcr : r with
    | nil => rw [hcr] at h; cases h
    | cons a rl =>
      have hlast : ((s.data.dropWhile Char.isWhitespace).reverse).getLast? = some c := by
        rw [← hdecomp, List.getLast?_append, hcr]
        rw [hcr] at h
        rw [h]
        rfl
      rw [List.getLast?_reverse] at hlast
      exact dropWhile_head_not _ _ _ hlast
  · intro c h
    simp only [List.getLast?_reverse] at h
    exact dropWhile_head_not _ _ _ h

/-- `strip` is idempotent. -/
theorem pyStrip_idem (s : String) : pyStrip (pyStrip s) = pyStrip s :=
  pyStrip_eq_of_ends _ (pyStrip_ends s).1 (pyStrip_ends s).2

/-- A join of nonempty pieces is nonempty. -/
theorem joinSpaceChars_ne_nil :
    ∀ (xs : List (List Char)), xs ≠ [] → (∀ x ∈ xs, x ≠ []) → joinSpaceChars xs ≠ [] := by
  intro xs
  induction xs with
  | nil => intro h; cases h rfl
  | cons x ys ih =>
    intro _ hall
    cases ys with
    | nil => exact hall x (List.mem_singleton.mpr rfl)
    | cons y rest =>
      show x ++ ' ' :: joinSpaceChars (y :: rest) ≠ []
      simp

/-- The head of a join is the head of its first piece. -/
theorem joinSpaceChars_head (x : List Char) (xs : List (List Char)) (hx : x ≠ []) :
    (joinSpaceChars (x :: xs)).head? = x.head? := by
  cases xs with
  | nil => rfl
  | cons y rest =>
    show (x ++ ' ' :: joinSpaceChars (y :: rest)).head? = x.head?
    cases x with
    | nil => exact absurd rfl hx
    | cons a l => rfl

/-- The last character of a join is the last of one of its pieces. -/
theorem joinSpaceChars_getLast :
    ∀ (xs : List (List Char)) (x : List Char), (∀ z ∈ x :: xs, z ≠ []) →
      ∃ z ∈ x :: xs, (joinSpaceChars (x :: xs)).getLast? = z.getLast? := by
  intro xs
  induction xs with
  | nil => intro x _; exact ⟨x, List.mem_singleton.mpr rfl, rfl⟩
  | cons y rest ih =>
    intro x hall
    obtain ⟨z, hz, hzl⟩ := ih y (fun a ha => hall a (List.mem_cons_of_mem x ha))
    refine ⟨z, List.mem_cons_of_mem x hz, ?_⟩
    show (x ++ ' ' :: joinSpaceChars (y :: rest)).getLast? = z.getLast?
    rw [List.getLast?_append]
    have hne : joinSpaceChars (y :: rest) ≠ [] :=
      joinSpaceChars_ne_nil (y :: rest) (by simp) (fun a ha => hall a (List.mem_cons_of_mem x ha))
    cases hj : joinSpaceChars (y :: rest) with
    | nil => exact absurd hj hne
    | cons b bl =>
      rw [hj] at hzl
      have : (' ' :: b :: bl).getLast? = (b :: bl).getLast? := by
        rw [show (' ' :: b :: bl) = [' '] ++ (b :: bl) from rfl, List.getLast?_append]
        cases hbb : (b :: bl).getLast? with
        | none => simp at hbb
        | some w => rfl
      rw [this, hzl]
      cases hzz : z.getLast? with
      | none =>
        have hzne : z ≠ [] := hall z (List.mem_cons_of_mem x hz)
        cases z with
        | nil => exact absurd rfl hzne
        | cons u ul => rw [List.getLast?_eq_getLast (u :: ul) (by simp)] at hzz; cases hzz
      | some w => rfl

/-- Stripping a space-join of nonempty, already-stripped strings is a no-op. -/
theorem pyStrip_joinSpace (l : List String)
    (h : ∀ s ∈ l, pyStrip s = s ∧ s ≠ "") :
    pyStrip (joinSpace l) = joinSpace l := by
  cases l with
  | nil => rfl
  | cons s rest =>
    have hne : ∀ z ∈ (s :: rest).map String.data, z ≠ [] := by
      intro z hz
      rcases List.mem_map.mp hz with ⟨t, ht, rfl⟩
      intro hzz
      exact (h t ht).2 (by cases t; simp at hzz; simp [hzz])
    have hends : ∀ t ∈ s :: rest,
        (∀ c, t.data.head? = some c → c.isWhitespace = false) ∧
        (∀ c, t.data.getLast? = some c → c.isWhitespace = false) := by
      intro t ht
      have := pyStrip_ends t
      rwa [(h t ht).1] at this
    refine pyStrip_eq_of_ends _ ?_ ?_
    · intro c hc
      have hsne : s.data ≠ [] := hne s.data (List.mem_map_of_mem _ (List.mem_cons_self s rest))
      rw [show (joinSpace (s :: rest)).data =
            joinSpaceChars (s.data :: rest.map String.data) from rfl] at hc
      rw [joinSpaceChars_head _ _ hsne] at hc
      exact (hends s (List.mem_cons_self s rest)).1 c hc
    · intro c hc
      rw [show (joinSpace (s :: rest)).data =
            joinSpaceChars (s.data :: rest.map String.data) from rfl] at hc
      obtain ⟨z, hz, hzl⟩ := joinSpaceChars_getLast (rest.map String.data) s.data
        (by intro z hz; exact hne z (by simpa using hz))
      rw [hzl] at hc
      have hz' : z ∈ (s :: rest).map String.data := by simpa using hz
      rcases List.mem_map.mp hz' with ⟨t, ht, rfl⟩
      exact (hends t ht).2 c hc

/-- Membership through stable insertion. -/
theorem mem_insertByKey (key : Word → ℤ) (w a : Word) :
    ∀ l : List Word, a ∈ insertByKey key w l ↔ a = w ∨ a ∈ l := by
  intro l
  induction l with
  | nil => simp [insertByKey]
  | cons v vs ih =>
    unfold insertByKey
    by_cases hk : key w ≤ key v
    · rw [if_pos hk]
      simp [List.mem_cons]
    · rw [if_neg hk]
      simp [List.mem_cons, ih]
      tauto

/-- Membership is preserved by the stable sort. -/
theorem mem_sortByKey (key : Word → ℤ) (a : Word) :
    ∀ l : List Word, a ∈ sortByKey key l ↔ a ∈ l := by
  intro l
  induction l with
  | nil => simp [sortByKey]
  | cons v vs ih =>
    unfold sortByKey
    rw [mem_insertByKey, ih]
    simp [List.mem_cons]

/-- Words in the cell walk's output come from the accumulator or the input. -/
theorem splitCellsAux_mem (thr : ℚ) :
    ∀ (ws cellWords : List Word) (prevX1 : Option ℤ) (g : List Word) (a : Word),
      g ∈ splitCellsAux thr ws cellWords prevX1 → a ∈ g → a ∈ cellWords ∨ a ∈ ws := by
  intro ws
  induction ws with
  | nil =>
    intro cellWords prevX1 g a hg ha
    unfold splitCellsAux at hg
    by_cases hc : cellWords = []
    · rw [if_pos hc] at hg; cases hg
    · rw [if_neg hc] at hg
      rcases List.mem_singleton.mp hg with rfl
      exact Or.inl ha
  | cons w rest ih =>
    intro cellWords prevX1 g a hg ha
    cases prevX1 with
    | none =>
      rw [show splitCellsAux thr (w :: rest) cellWords none =
        splitCellsAux thr rest (cellWords ++ [w]) (some w.x1) from rfl] at hg
      rcases ih (cellWords ++ [w]) (some w.x1) g a hg ha with h | h
      · rcases List.mem_append.mp h with h | h
        · exact Or.inl h
        · exact Or.inr (List.mem_cons.mpr (Or.inl (List.mem_singleton.mp h)))
      · exact Or.inr (List.mem_cons_of_mem w h)
    | some p =>
      rw [show splitCellsAux thr (w :: rest) cellWords (some p) =
        (if ((w.x0 - p : ℤ) : ℚ) > thr then cellWords :: splitCellsAux thr rest [w] (some w.x1)
         else splitCellsAux thr rest (cellWords ++ [w]) (some w.x1)) from rfl] at hg
      by_cases hgap : ((w.x0 - p : ℤ) : ℚ) > thr
      · rw [if_pos hgap] at hg
        rcases List.mem_cons.mp hg with rfl | hg
        · exact Or.inl ha
        · rcases ih [w] (some w.x1) g a hg ha with h | h
          · exact Or.inr (List.mem_cons.mpr (Or.inl (List.mem_singleton.mp h)))
          · exact Or.inr (List.mem_cons_of_mem w h)
      · rw [if_neg hgap] at hg
        rcases ih (cellWords ++ [w]) (some w.x1) g a hg ha with h | h
        · rcases List.mem_append.mp h with h | h
          · exact Or.inl h
          · exact Or.inr (List.mem_cons.mpr (Or.inl (List.mem_singleton.mp h)))
        · exact Or.inr (List.mem_cons_of_mem w h)

/-- Words of a cell group belong to the original row. -/
theorem cellGroupsOf_mem (ws : List Word) (g : List Word) (a : Word)
    (hg : g ∈ cellGroupsOf ws) (ha : a ∈ g) : a ∈ ws := by
  unfold cellGroupsOf at hg
  rcases splitCellsAux_mem _ _ _ _ _ _ hg ha with h | h
  · cases h
  · exact (mem_sortByKey _ _ _).mp h

/-- OCR words pass the filter stripped and nonempty. -/
theorem buildWords_text_invariant (raw : List RawWord) :
    ∀ w ∈ buildWords raw, pyStrip w.text = w.text ∧ w.text ≠ "" := by
  intro w hw
  unfold buildWords at hw
  rcases List.mem_filterMap.mp hw with ⟨r, _, hr⟩
  by_cases hcond : pyStrip r.text = "" ∨ r.conf < 40
  · simp only [if_pos hcond] at hr; cases hr
  · simp only [if_neg hcond] at hr
    rcases Option.some.inj hr with rfl
    exact ⟨pyStrip_idem r.text, fun he => hcond (Or.inl he)⟩

/-- The cell walk with a nonempty current cell ending in `w` produces the
declarative groups of `w :: ws`, with the accumulated prefix glued onto the
first group. -/
theorem splitCellsAux_spec (thr : ℚ) :
    ∀ (ws : List Word) (w : Word) (c : List Word),
      ∃ g gs, specGroups thr (w :: ws) = (w :: g) :: gs ∧
        splitCellsAux thr ws (c ++ [w]) (some w.x1) = (c ++ w :: g) :: gs := by
  intro ws
  induction ws with
  | nil =>
    intro w c
    refine ⟨[], [], rfl, ?_⟩
    rw [show splitCellsAux thr [] (c ++ [w]) (some w.x1) =
      (if c ++ [w] = [] then [] else [c ++ [w]]) from rfl]
    rw [if_neg (by simp)]
  | cons v rest ih =>
    intro w c
    rw [show splitCellsAux thr (v :: rest) (c ++ [w]) (some w.x1) =
      (if ((v.x0 - w.x1 : ℤ) : ℚ) > thr then (c ++ [w]) :: splitCellsAux thr rest [v] (some v.x1)
       else splitCellsAux thr rest ((c ++ [w]) ++ [v]) (some v.x1)) from rfl]
    by_cases hgap : ((v.x0 - w.x1 : ℤ) : ℚ) > thr
    · obtain ⟨g, gs, hspec, hsplit⟩ := ih v []
      have hsg : specGroups thr (w :: v :: rest) = [w] :: (v :: g) :: gs := by
        rw [show specGroups thr (w :: v :: rest) =
          (match specGroups thr (v :: rest) with
           | g :: gs => if ((v.x0 - w.x1 : ℤ) : ℚ) > thr then [w] :: g :: gs else (w :: g) :: gs
           | [] => [[w]]) from rfl]
        rw [hspec]
        exact if_pos hgap
      refine ⟨[], (v :: g) :: gs, hsg, ?_⟩
      rw [if_pos hgap]
      rw [show ([] : List Word) ++ [v] = [v] from rfl] at hsplit
      rw [hsplit]
      simp
    · obtain ⟨g, gs, hspec, hsplit⟩ := ih v (c ++ [w])
      have hsg : specGroups thr (w :: v :: rest) = (w :: v :: g) :: gs := by
        rw [show specGroups thr (w :: v :: rest) =
          (match specGroups thr (v :: rest) with
           | g :: gs => if ((v.x0 - w.x1 : ℤ) : ℚ) > thr then [w] :: g :: gs else (w :: g) :: gs
           | [] => [[w]]) from rfl]
        rw [hspec]
        exact if_neg hgap
      refine ⟨v :: g, gs, hsg, ?_⟩
      rw [if_neg hgap]
      rw [hsplit]
      simp

/-- The imperative cell walk of `_flush_row` computes exactly the declarative
groups over the sorted row. -/
theorem cellGroupsOf_eq_specGroups (ws : List Word) :
    cellGroupsOf ws =
      specGroups (gapThresholdOf (sortByKey (fun w => w.x0) ws))
        (sortByKey (fun w => w.x0) ws) := by
  unfold cellGroupsOf
  generalize sortByKey (fun w => w.x0) ws = s
  cases s with
  | nil => rfl
  | cons w rest =>
    rw [show splitCellsAux (gapThresholdOf (w :: rest)) (w :: rest) [] none =
      splitCellsAux (gapThresholdOf (w :: rest)) rest ([] ++ [w]) (some w.x1) from rfl]
    obtain ⟨g, gs, hspec, hsplit⟩ := splitCellsAux_spec (gapThresholdOf (w :: rest)) rest w []
    rw [hsplit, hspec]
    simp

/-- C7: in OCR column grouping the words are sorted by left coordinate, the
gap threshold is `max(18, min(120, 0.8 * medianGap))` with the median gap
defaulting to 25 for rows of fewer than two words, a new cell begins exactly
when the gap from the previous word's right edge to the current word's left
edge exceeds the threshold, and each cell's text is its words' texts joined by
a single space in left-to-right order (the code's final `strip` is a no-op for
the stripped, nonempty texts the OCR filter produces). -/
theorem ocr_row_cell_grouping :
    (∀ ws : List Word,
      flushRowTexts ws =
        (specGroups (gapThresholdOf (sortByKey (fun w => w.x0) ws))
            (sortByKey (fun w => w.x0) ws)).map
          (fun g => pyStrip (joinSpace (g.map Word.text)))) ∧
    (∀ ws : List Word, (∀ w ∈ ws, pyStrip w.text = w.text ∧ w.text ≠ "") →
      flushRowTexts ws =
        (specGroups (gapThresholdOf (sortByKey (fun w => w.x0) ws))
            (sortByKey (fun w => w.x0) ws)).map
          (fun g => joinSpace (g.map Word.text))) ∧
    (∀ raw : List RawWord, ∀ w ∈ buildWords raw, pyStrip w.text = w.text ∧ w.text ≠ "") ∧
    (∀ ws : List Word, gapThresholdOf ws = max 18 (min 120 (gapMedianOf ws * (4/5)))) ∧
    (∀ ws : List Word, ws.length < 2 → gapMedianOf ws = 25) := by
  refine ⟨?_, ?_, buildWords_text_invariant, fun ws => rfl, ?_⟩
  · intro ws
    unfold flushRowTexts
    rw [cellGroupsOf_eq_specGroups]
  · intro ws h
    have hcong : ∀ g ∈ cellGroupsOf ws,
        pyStrip (joinSpace (g.map Word.text)) = joinSpace (g.map Word.text) := by
      intro g hg
      refine pyStrip_joinSpace _ ?_
      intro s hs
      rcases List.mem_map.mp hs with ⟨w, hw, rfl⟩
      exact h w (cellGroupsOf_mem ws g w hg hw)
    unfold flushRowTexts
    rw [List.map_congr_left hcong, cellGroupsOf_eq_specGroups]
  · intro ws h
    match ws with
    | [] => rfl
    | [w] => rfl
    | a :: b :: rest => exact absurd h (by simp)

/-- Witness for C7 at a concrete two-word row (in reversed order, so sorting
matters) and a one-word row for the median default. -/
theorem ocr_row_cell_grouping_witness :
    flushRowTexts [wordR, wordL] =
      (specGroups (gapThresholdOf (sortByKey (fun w => w.x0) [wordR, wordL]))
          (sortByKey (fun w => w.x0) [wordR, wordL])).map
        (fun g => joinSpace (g.map Word.text)) ∧
    gapMedianOf [wordL] = 25 :=
  ⟨ocr_row_cell_grouping.2.1 [wordR, wordL] (by decide),
   ocr_row_cell_grouping.2.2.2.2 [wordL] (by decide)⟩

/-- The OCR padding step keeps the text and color matrices parallel: the text
row's deficit is used to pad both lists, so lengths agree rowwise. -/
theorem ocr_padded_parallel (gs : List (List Word)) (imgOpt : Option Image) (m : ℕ) :
    ((((gs.map flushRowTexts).zip (gs.map (flushRowColors imgOpt))).map (fun rh =>
        (rh.1 ++ List.replicate (m - rh.1.length) "",
         rh.2 ++ List.replicate (m - rh.1.length) none))).map Prod.fst).length =
      ((((gs.map flushRowTexts).zip (gs.map (flushRowColors imgOpt))).map (fun rh =>
        (rh.1 ++ List.replicate (m - rh.1.length) "",
         rh.2 ++ List.replicate (m - rh.1.length) none))).map Prod.snd).length ∧
    ∀ i, (((((gs.map flushRowTexts).zip (gs.map (flushRowColors imgOpt))).map (fun rh =>
        (rh.1 ++ List.replicate (m - rh.1.length) "",
         rh.2 ++ List.replicate (m - rh.1.length) none))).map Prod.fst).get? i).map List.length =
      (((((gs.map flushRowTexts).zip (gs.map (flushRowColors imgOpt))).map (fun rh =>
        (rh.1 ++ List.replicate (m - rh.1.length) "",
         rh.2 ++ List.replicate (m - rh.1.length) none))).map Prod.snd).get? i).map List.length := by
  rw [List.zip_map']
  refine ⟨by simp, ?_⟩
  intro i
  simp only [List.get?_map]
  cases hg : gs.get? i with
  | none => rfl
  | some g =>
    simp only [Option.map_some']
    have hlen : (flushRowTexts g).length = (flushRowColors imgOpt g).length := by
      simp [flushRowTexts, flushRowColors]
    simp [hlen]

/-- C1 amended: the color matrix always has as many rows as the text matrix in
both paths; in the OCR path every color row has exactly its text row's length;
in the vector path every color row has the longest text row's length (so
per-row equality holds exactly for rectangular extracts). -/
theorem matrix_dims_parallel :
    (∀ (t : Table) (p : Page), (map_highlights t p).length = t.extract.length) ∧
    (∀ (t : Table) (p : Page), ∀ row ∈ map_highlights t p, row.length = maxRowLen t.extract) ∧
    (∀ (env : Env) (imgOpt : Option Image) (raw : Option (List RawWord)),
      (ocr_rows_and_highlights env imgOpt raw).1.length =
        (ocr_rows_and_highlights env imgOpt raw).2.length ∧
      ∀ i, ((ocr_rows_and_highlights env imgOpt raw).1.get? i).map List.length =
        ((ocr_rows_and_highlights env imgOpt raw).2.get? i).map List.length) := by
  refine ⟨?_, ?_, ?_⟩
  · intro t p
    by_cases hd : t.extract = []
    · simp only [map_highlights, if_pos hd]
      rw [hd]
    · by_cases hr : rectangles_with_color p = []
      · rw [map_highlights_eq_of_rects_nil t p hd hr]; simp
      · rw [map_highlights_eq_of_ne t p hd hr]; simp
  · intro t p row hrow
    by_cases hd : t.extract = []
    · simp only [map_highlights, if_pos hd] at hrow
      cases hrow
    · by_cases hr : rectangles_with_color p = []
      · rw [map_highlights_eq_of_rects_nil t p hd hr] at hrow
        rcases List.mem_map.mp hrow with ⟨a, _, rfl⟩
        simp
      · rw [map_highlights_eq_of_ne t p hd hr] at hrow
        rcases List.mem_map.mp hrow with ⟨a, _, rfl⟩
        exact mapRow_length _ _ _ _ _
  · intro env imgOpt raw
    unfold ocr_rows_and_highlights
    split
    · exact ⟨rfl, fun i => rfl⟩
    · split
      · exact ⟨rfl, fun i => rfl⟩
      · split
        · exact ⟨rfl, fun i => rfl⟩
        · dsimp only
          split
          · exact ⟨rfl, fun i => rfl⟩
          · exact ocr_padded_parallel _ _ _

/-- Witness for C1 amended at the concrete jagged table: row count matches and
the color row has the longest text row's length. -/
theorem matrix_dims_parallel_witness :
    (map_highlights tableJag pageEmpty).length = tableJag.extract.length ∧
    ([none, none] : List (Option String)).length = maxRowLen tableJag.extract :=
  ⟨matrix_dims_parallel.1 tableJag pageEmpty,
   matrix_dims_parallel.2.1 tableJag pageEmpty [none, none] (by decide)⟩

/-- Means over a crop of a constant-color image: zero area gives mean 0,
positive area gives the constant channel value. -/
theorem cropMeans_const (img : Image) (p : PBox) (cr cg cb : ℚ)
    (hpix : ∀ x y, img.pix x y = (cr, cg, cb)) :
    ((cropW p).toNat = 0 ∨ (cropH p).toNat = 0 →
      meanR img p = 0 ∧ meanG img p = 0 ∧ meanB img p = 0) ∧
    ((cropW p).toNat ≠ 0 → (cropH p).toNat ≠ 0 →
      meanR img p = cr ∧ meanG img p = cg ∧ meanB img p = cb) := by
  have hsum : ∀ f : ℚ × ℚ × ℚ → ℚ,
      cropSum img p f = (((cropH p).toNat * (cropW p).toNat : ℕ) : ℚ) * f (cr, cg, cb) := by
    intro f
    unfold cropSum
    have hinner : ∀ dy : ℕ,
        (∑ dx ∈ Finset.range (cropW p).toNat, f (img.pix (p.x0 + (dx : ℤ)) (p.top + (dy : ℤ)))) =
          ((cropW p).toNat : ℚ) * f (cr, cg, cb) := by
      intro dy
      rw [Finset.sum_congr rfl (fun dx _ => by rw [hpix])]
      rw [Finset.sum_const, Finset.card_range, nsmul_eq_mul]
    rw [Finset.sum_congr rfl (fun dy _ => hinner dy)]
    rw [Finset.sum_const, Finset.card_range, nsmul_eq_mul]
    push_cast
    ring
  constructor
  · intro hz
    have harea : cropArea p = 0 := by
      unfold cropArea
      rcases hz with hz | hz <;> simp [hz]
    exact ⟨by unfold meanR; rw [harea, div_zero],
           by unfold meanG; rw [harea, div_zero],
           by unfold meanB; rw [harea, div_zero]⟩
  · intro hw hh
    have harea : cropArea p ≠ 0 := by
      unfold cropArea
      exact_mod_cast Nat.mul_ne_zero hw hh
    have harea' : cropArea p = (((cropW p).toNat * (cropH p).toNat : ℕ) : ℚ) := rfl
    have hcast : (((cropW p).toNat * (cropH p).toNat : ℕ) : ℚ) ≠ 0 := harea' ▸ harea
    refine ⟨?_, ?_, ?_⟩
    · unfold meanR
      rw [hsum, harea', div_eq_iff hcast]
      push_cast
      ring
    · unfold meanG
      rw [hsum, harea', div_eq_iff hcast]
      push_cast
      ring
    · unfold meanB
      rw [hsum, harea', div_eq_iff hcast]
      push_cast
      ring

/-- C5: with an image present and a crop whose PIL dimensions are nonnegative,
the estimate is non-null exactly when the 2-pixel-padded image-clamped crop is
non-empty and its mean-pixel statistics satisfy saturation > 0.25 and
brightness > 120; when non-null it is the `FFrrggbb` encoding of the truncated
mean color; a uniformly white image always yields null (saturation 0), and a
missing image yields null. -/
theorem estimate_highlight_classification :
    (∀ (img : Image) (bbox : Box),
      0 ≤ cropW (pad_bbox bbox 2 img.width img.height) →
      0 ≤ cropH (pad_bbox bbox 2 img.width img.height) →
      ((estimate_highlight_color (some img) bbox).isSome = true ↔
        (0 < cropW (pad_bbox bbox 2 img.width img.height) ∧
         0 < cropH (pad_bbox bbox 2 img.width img.height) ∧
         (1/4 : ℚ) < saturationOf img (pad_bbox bbox 2 img.width img.height) ∧
         (120 : ℚ) < brightnessOf img (pad_bbox bbox 2 img.width img.height)))) ∧
    (∀ (img : Image) (bbox : Box) (s : String),
      estimate_highlight_color (some img) bbox = some s →
      s = "FF" ++ pyHex02 (pyInt (meanR img (pad_bbox bbox 2 img.width img.height))) ++
        pyHex02 (pyInt (meanG img (pad_bbox bbox 2 img.width img.height))) ++
        pyHex02 (pyInt (meanB img (pad_bbox bbox 2 img.width img.height)))) ∧
    (∀ (img : Image) (bbox : Box), (∀ x y, img.pix x y = (255, 255, 255)) →
      estimate_highlight_color (some img) bbox = none) ∧
    (∀ bbox : Box, estimate_highlight_color none bbox = none) := by
  refine ⟨?_, ?_, ?_, fun bbox => rfl⟩
  · intro img bbox h0w h0h
    show ((if cropW (pad_bbox bbox 2 img.width img.height) = 0 ∨
            cropH (pad_bbox bbox 2 img.width img.height) = 0 then none
          else if (1/4 : ℚ) < saturationOf img (pad_bbox bbox 2 img.width img.height) ∧
            (120 : ℚ) < brightnessOf img (pad_bbox bbox 2 img.width img.height) then
            some ("FF" ++ pyHex02 (pyInt (meanR img (pad_bbox bbox 2 img.width img.height))) ++
              pyHex02 (pyInt (meanG img (pad_bbox bbox 2 img.width img.height))) ++
              pyHex02 (pyInt (meanB img (pad_bbox bbox 2 img.width img.height))))
          else none).isSome = true) ↔ _
    by_cases hz : cropW (pad_bbox bbox 2 img.width img.height) = 0 ∨
        cropH (pad_bbox bbox 2 img.width img.height) = 0
    · rw [if_pos hz]
      simp only [Option.isSome_none]
      constructor
      · intro h; cases h
      · rintro ⟨h1, h2, -⟩
        rcases hz with hz | hz
        · exact absurd hz (ne_of_gt h1)
        · exact absurd hz (ne_of_gt h2)
    · rw [if_neg hz]
      push_neg at hz
      have hw : 0 < cropW (pad_bbox bbox 2 img.width img.height) :=
        lt_of_le_of_ne h0w (Ne.symm hz.1)
      have hh : 0 < cropH (pad_bbox bbox 2 img.width img.height) :=
        lt_of_le_of_ne h0h (Ne.symm hz.2)
      by_cases hs : (1/4 : ℚ) < saturationOf img (pad_bbox bbox 2 img.width img.height) ∧
          (120 : ℚ) < brightnessOf img (pad_bbox bbox 2 img.width img.height)
      · rw [if_pos hs]
        simp only [Option.isSome_some]
        exact ⟨fun _ => ⟨hw, hh, hs.1, hs.2⟩, fun _ => trivial⟩
      · rw [if_neg hs]
        simp only [Option.isSome_none]
        constructor
        · intro h; cases h
        · rintro ⟨-, -, h3, h4⟩
          exact absurd ⟨h3, h4⟩ hs
  · intro img bbox s h
    rw [show estimate_highlight_color (some img) bbox =
      (if cropW (pad_bbox bbox 2 img.width img.height) = 0 ∨
          cropH (pad_bbox bbox 2 img.width img.height) = 0 then none
        else if (1/4 : ℚ) < saturationOf img (pad_bbox bbox 2 img.width img.height) ∧
          (120 : ℚ) < brightnessOf img (pad_bbox bbox 2 img.width img.height) then
          some ("FF" ++ pyHex02 (pyInt (meanR img (pad_bbox bbox 2 img.width img.height))) ++
            pyHex02 (pyInt (meanG img (pad_bbox bbox 2 img.width img.height))) ++
            pyHex02 (pyInt (meanB img (pad_bbox bbox 2 img.width img.height))))
        else none) from rfl] at h
    split at h
    · cases h
    · split at h
      · exact (Option.some.inj h).symm
      · cases h
  · intro img bbox hpix
    rw [show estimate_highlight_color (some img) bbox =
      (if cropW (pad_bbox bbox 2 img.width img.height) = 0 ∨
          cropH (pad_bbox bbox 2 img.width img.height) = 0 then none
        else if (1/4 : ℚ) < saturationOf img (pad_bbox bbox 2 img.width img.height) ∧
          (120 : ℚ) < brightnessOf img (pad_bbox bbox 2 img.width img.height) then
          some ("FF" ++ pyHex02 (pyInt (meanR img (pad_bbox bbox 2 img.width img.height))) ++
            pyHex02 (pyInt (meanG img (pad_bbox bbox 2 img.width img.height))) ++
            pyHex02 (pyInt (meanB img (pad_bbox bbox 2 img.width img.height))))
        else none) from rfl]
    by_cases hz : cropW (pad_bbox bbox 2 img.width img.height) = 0 ∨
        cropH (pad_bbox bbox 2 img.width img.height) = 0
    · rw [if_pos hz]
    · rw [if_neg hz]
      obtain ⟨hzero, hconst⟩ :=
        cropMeans_const img (pad_bbox bbox 2 img.width img.height) 255 255 255 hpix
      have hsat : saturationOf img (pad_bbox bbox 2 img.width img.height) = 0 := by
        by_cases hw : (cropW (pad_bbox bbox 2 img.width img.height)).toNat = 0 ∨
            (cropH (pad_bbox bbox 2 img.width img.height)).toNat = 0
        · obtain ⟨hr, hg, hb⟩ := hzero hw
          have hmax : maxcOf img (pad_bbox bbox 2 img.width img.height) = 0 := by
            unfold maxcOf; rw [hr, hg, hb]; norm_num
          unfold saturationOf
          rw [if_pos hmax]
        · push_neg at hw
          obtain ⟨hr, hg, hb⟩ := hconst hw.1 hw.2
          have hmax : maxcOf img (pad_bbox bbox 2 img.width img.height) = 255 := by
            unfold maxcOf; rw [hr, hg, hb]; norm_num
          have hmin : mincOf img (pad_bbox bbox 2 img.width img.height) = 255 := by
            unfold mincOf; rw [hr, hg, hb]; norm_num
          unfold saturationOf
          rw [if_neg (by rw [hmax]; norm_num), hmax, hmin]
          norm_num
      rw [if_neg (fun hc => by rw [hsat] at hc; norm_num at hc)]

/-- `int(-2.0)` is `-2`. -/
theorem pyInt_neg_two : pyInt (-2 : ℚ) = -2 := by
  have hnum : (-2 : ℚ).num = -2 := by norm_num
  have hden : ((-2 : ℚ).den : ℤ) = 1 := by norm_num
  unfold pyInt
  rw [hnum, hden]
  decide

/-- `int(4.0)` is `4`. -/
theorem pyInt_four : pyInt (4 : ℚ) = 4 := by
  have hnum : (4 : ℚ).num = 4 := by norm_num
  have hden : ((4 : ℚ).den : ℤ) = 1 := by norm_num
  unfold pyInt
  rw [hnum, hden]
  decide

/-- The padded, clamped crop of `bboxSmall` inside the 4x4 image. -/
theorem padSmallYellow :
    pad_bbox bboxSmall 2 imgYellow.width imgYellow.height = ⟨0, 0, 4, 4⟩ := by
  have ha : bboxSmall.x0 - 2 = (-2 : ℚ) := by norm_num [bboxSmall]
  have hb : bboxSmall.top - 2 = (-2 : ℚ) := by norm_num [bboxSmall]
  have hc : bboxSmall.x1 + 2 = (4 : ℚ) := by norm_num [bboxSmall]
  have hd : bboxSmall.bottom + 2 = (4 : ℚ) := by norm_num [bboxSmall]
  unfold pad_bbox
  rw [ha, hb, hc, hd, pyInt_neg_two, pyInt_four]
  decide

/-- Channel means over the uniform yellow crop. -/
theorem meansYellow :
    meanR imgYellow ⟨0, 0, 4, 4⟩ = 255 ∧ meanG imgYellow ⟨0, 0, 4, 4⟩ = 255 ∧
      meanB imgYellow ⟨0, 0, 4, 4⟩ = 170 :=
  (cropMeans_const imgYellow ⟨0, 0, 4, 4⟩ 255 255 170 (fun _ _ => rfl)).2
    (by decide) (by decide)

/-- Saturation of the uniform yellow crop is 1/3. -/
theorem satYellow : saturationOf imgYellow ⟨0, 0, 4, 4⟩ = 1/3 := by
  obtain ⟨hr, hg, hb⟩ := meansYellow
  have hmax : maxcOf imgYellow ⟨0, 0, 4, 4⟩ = 255 := by
    unfold maxcOf
    rw [hr, hg, hb, max_eq_left (by norm_num : (170 : ℚ) ≤ 255), max_self]
  have hmin : mincOf imgYellow ⟨0, 0, 4, 4⟩ = 170 := by
    unfold mincOf
    rw [hr, hg, hb, min_eq_right (by norm_num : (170 : ℚ) ≤ 255),
      min_eq_right (by norm_num : (170 : ℚ) ≤ 255)]
  unfold saturationOf
  rw [if_neg (by rw [hmax]; norm_num), hmax, hmin]
  norm_num

/-- Brightness of the uniform yellow crop is 680/3. -/
theorem brightYellow : brightnessOf imgYellow ⟨0, 0, 4, 4⟩ = 680/3 := by
  obtain ⟨hr, hg, hb⟩ := meansYellow
  unfold brightnessOf
  rw [hr, hg, hb]
  norm_num

/-- Witness for C5: on a uniformly saturated yellow 4x4 image the estimate is
non-null. -/
theorem estimate_highlight_classification_witness :
    (estimate_highlight_color (some imgYellow) bboxSmall).isSome = true := by
  refine (estimate_highlight_classification.1 imgYellow bboxSmall ?_ ?_).mpr ?_
  · rw [padSmallYellow]; decide
  · rw [padSmallYellow]; decide
  · rw [padSmallYellow, satYellow, brightYellow]
    refine ⟨by decide, by decide, by norm_num, by norm_num⟩
